import Mathlib

/-!
Verification of the remedia download core: a shallow embedding of
`src-tauri/src/download_queue.rs` (the `DownloadQueue` job queue),
`src-tauri/src/downloader/progress.rs` (progress-line parsing) and the
terminal-outcome classification block of
`src-tauri/src/downloader/subprocess.rs` (`execute_download`), together with
theorems about queue invariants, admission, idempotent enqueue, clamping and
outcome classification.

Modelling conventions: Rust `i32` media indices become `Int` (no arithmetic is
performed on them, so wrap-around cannot be observed); `HashSet<i32>` becomes a
`List Int` with set-semantics operations; `HashMap<i32, QueuedDownload>` becomes
an association list `List (Int × QueuedDownload)`; `VecDeque` becomes `List`
(front = head).  Rust `f64` values arising from progress parsing are modelled by
`RustF64` below.
-/

/-- `DownloadStatus` from download_queue.rs. -/
inductive DownloadStatus where
  | Queued
  | Downloading
  | Completed
  | Failed
  | Cancelled
deriving DecidableEq, Repr

/-- `QueuedDownload` from download_queue.rs. -/
structure QueuedDownload where
  media_idx : Int
  url : String
  output_location : String
  settings : String
  subfolder : Option String
  status : DownloadStatus
deriving DecidableEq, Repr

/-- Membership test of the `HashSet<i32>` model (`HashSet::contains`). -/
def setContains (s : List Int) (k : Int) : Bool :=
  s.contains k

/-- `HashSet::insert` on the model: a set never gains a duplicate. -/
def setInsert (s : List Int) (k : Int) : List Int :=
  if s.contains k then s else s ++ [k]

/-- `HashSet::remove` on the model: returns whether the element was present,
together with the set with every copy of the element gone. -/
def setRemove (s : List Int) (k : Int) : Bool × List Int :=
  (s.contains k, s.filter (fun x => !(x == k)))

/-- `HashMap::contains_key` on the association-list model. -/
def mapContains (m : List (Int × QueuedDownload)) (k : Int) : Bool :=
  m.any (fun p => p.1 == k)

/-- `HashMap::remove` on the model: the removed value (if the key was present)
and the map without the key. -/
def mapRemove (m : List (Int × QueuedDownload)) (k : Int) :
    Option QueuedDownload × List (Int × QueuedDownload) :=
  ((m.find? (fun p => p.1 == k)).map Prod.snd, m.filter (fun p => !(p.1 == k)))

/-- `HashMap::insert` on the model: replaces the value if the key is present,
otherwise appends the new binding.
(If the key is present the old value is overwritten, as in Rust.) -/
def mapInsert (m : List (Int × QueuedDownload)) (k : Int) (v : QueuedDownload) :
    List (Int × QueuedDownload) :=
  if mapContains m k then m.map (fun p => if p.1 == k then (k, v) else p)
  else m ++ [(k, v)]

/-- `DownloadQueue` from download_queue.rs. -/
structure DownloadQueue where
  max_concurrent : Nat
  queue : List QueuedDownload
  queued_set : List Int
  active : List (Int × QueuedDownload)
deriving DecidableEq, Repr

namespace DownloadQueue

/-- `DownloadQueue::new`: clamps the capacity to at least 1. -/
def new (max_concurrent : Nat) : DownloadQueue :=
  { max_concurrent := Nat.max max_concurrent 1
    queue := []
    queued_set := []
    active := [] }

/-- `DownloadQueue::enqueue`: idempotent; a no-op returning `Ok(())` when the
id is already queued or active. -/
def enqueue (s : DownloadQueue) (download : QueuedDownload) :
    DownloadQueue × Except String Unit :=
  let idx := download.media_idx
  if setContains s.queued_set idx || mapContains s.active idx then
    (s, Except.ok ())
  else
    ({ s with queued_set := setInsert s.queued_set idx
              queue := s.queue ++ [download] },
     Except.ok ())

/-- `DownloadQueue::next_to_start`: admits the front pending download when
capacity remains. -/
def next_to_start (s : DownloadQueue) : DownloadQueue × Option QueuedDownload :=
  if s.active.length ≥ s.max_concurrent then (s, none)
  else
    match s.queue with
    | [] => (s, none)
    | download :: rest =>
      let started := { download with status := DownloadStatus.Downloading }
      ({ s with queue := rest
                queued_set := (setRemove s.queued_set download.media_idx).2
                active := mapInsert s.active download.media_idx started },
       some started)

/-- `DownloadQueue::complete`.  The Rust function returns `()`; the
`Completed` status is written into the local copy removed from `active`,
which is immediately dropped. -/
def complete (s : DownloadQueue) (media_idx : Int) : DownloadQueue × Unit :=
  match mapRemove s.active media_idx with
  | (some download, rest) =>
    let _dropped := { download with status := DownloadStatus.Completed }
    ({ s with active := rest }, ())
  | (none, rest) => ({ s with active := rest }, ())

/-- `DownloadQueue::fail`.  The Rust function returns `()`; the `Failed`
status is written into a dropped local copy, as in `complete`. -/
def fail (s : DownloadQueue) (media_idx : Int) : DownloadQueue × Unit :=
  match mapRemove s.active media_idx with
  | (some download, rest) =>
    let _dropped := { download with status := DownloadStatus.Failed }
    ({ s with active := rest }, ())
  | (none, rest) => ({ s with active := rest }, ())

/-- `DownloadQueue::cancel`: removes a queued id from `queued_set` and from
the pending queue (first occurrence), or an active id from `active`;
returns whether the id was found. -/
def cancel (s : DownloadQueue) (media_idx : Int) : DownloadQueue × Bool :=
  let removed := setRemove s.queued_set media_idx
  if removed.1 then
    let s1 := { s with queued_set := removed.2 }
    match s1.queue.findIdx? (fun d => d.media_idx == media_idx) with
    | some pos => ({ s1 with queue := s1.queue.eraseIdx pos }, true)
    | none => (s1, true)
  else
    match mapRemove s.active media_idx with
    | (some download, rest) =>
      let _dropped := { download with status := DownloadStatus.Cancelled }
      ({ s with active := rest }, true)
    | (none, _) => (s, false)

/-- `DownloadQueue::cancel_all`: drains pending then active, returning every
affected id. -/
def cancel_all (s : DownloadQueue) : DownloadQueue × List Int :=
  let cancelled := s.queue.map (fun d => d.media_idx) ++ s.active.map Prod.fst
  ({ s with queue := [], queued_set := [], active := [] }, cancelled)

/-- `DownloadQueue::set_max_concurrent`: clamps to at least 1. -/
def set_max_concurrent (s : DownloadQueue) (m : Nat) : DownloadQueue :=
  { s with max_concurrent := Nat.max m 1 }

end DownloadQueue

/-- `QueueStatus` from download_queue.rs. -/
structure QueueStatus where
  queued : Nat
  active : Nat
  max_concurrent : Nat
deriving DecidableEq, Repr

/-- `DownloadQueue::status`. -/
def DownloadQueue.status (s : DownloadQueue) : QueueStatus :=
  { queued := s.queue.length
    active := s.active.length
    max_concurrent := s.max_concurrent }

/-- One bookkeeping call on the queue, used to describe reachable states. -/
inductive QueueOp where
  | enqueue (d : QueuedDownload)
  | startNext
  | complete (idx : Int)
  | fail (idx : Int)
  | cancel (idx : Int)
  | cancelAll
  | setMax (n : Nat)
deriving DecidableEq, Repr

/-- State reached after one queue operation (return values discarded). -/
def applyOp (s : DownloadQueue) : QueueOp → DownloadQueue
  | QueueOp.enqueue d => (s.enqueue d).1
  | QueueOp.startNext => s.next_to_start.1
  | QueueOp.complete idx => (s.complete idx).1
  | QueueOp.fail idx => (s.fail idx).1
  | QueueOp.cancel idx => (s.cancel idx).1
  | QueueOp.cancelAll => s.cancel_all.1
  | QueueOp.setMax n => s.set_max_concurrent n

/-- State reached after a sequence of queue operations. -/
def runOps (s : DownloadQueue) (ops : List QueueOp) : DownloadQueue :=
  ops.foldl applyOp s

/-- Whether one operation is a `set_max_concurrent` call. -/
def isSetMaxOp : QueueOp → Bool
  | QueueOp.setMax _ => true
  | _ => false

/-- Whether a sequence of operations contains a `set_max_concurrent` call. -/
def hasSetMax (ops : List QueueOp) : Bool :=
  ops.any isSetMaxOp

/-- Ids of the pending downloads, in queue order. -/
def queueIds (s : DownloadQueue) : List Int :=
  s.queue.map (fun d => d.media_idx)

/-- Keys of the active map. -/
def activeKeys (s : DownloadQueue) : List Int :=
  s.active.map Prod.fst

/-- Structural invariant of `DownloadQueue`, maintained by every operation:
no duplicate pending ids, `queued_set` mirrors pending membership exactly,
and pending and active ids are disjoint. -/
def QueueInv (s : DownloadQueue) : Prop :=
  (queueIds s).Nodup ∧ s.queued_set.Nodup ∧ (activeKeys s).Nodup ∧
  (∀ k ∈ s.queued_set, k ∈ queueIds s) ∧
  (∀ k ∈ queueIds s, k ∈ s.queued_set) ∧
  (∀ k ∈ queueIds s, k ∉ activeKeys s)

/-! ### Basic lemmas about the container models -/

theorem setContains_iff (s : List Int) (k : Int) : setContains s k = true ↔ k ∈ s := by
  simp [setContains]

theorem mapContains_iff (m : List (Int × QueuedDownload)) (k : Int) :
    mapContains m k = true ↔ k ∈ m.map Prod.fst := by
  simp [mapContains]

theorem mem_setRemove {s : List Int} {k k' : Int} :
    k' ∈ (setRemove s k).2 ↔ k' ∈ s ∧ k' ≠ k := by
  simp [setRemove]

theorem setRemove_nodup {s : List Int} (h : s.Nodup) (k : Int) : (setRemove s k).2.Nodup :=
  h.filter _

theorem mapRemove_keys (m : List (Int × QueuedDownload)) (k : Int) :
    (mapRemove m k).2.map Prod.fst = (m.map Prod.fst).filter (fun x => !(x == k)) := by
  induction m with
  | nil => rfl
  | cons a l ih =>
    by_cases h : a.1 == k <;> simp [mapRemove, List.filter_cons, h] at ih ⊢ <;> exact ih

theorem mapInsert_keys_of_not_contains {m : List (Int × QueuedDownload)} {k : Int}
    (h : mapContains m k = false) (v : QueuedDownload) :
    (mapInsert m k v).map Prod.fst = m.map Prod.fst ++ [k] := by
  simp [mapInsert, h]

theorem mapInsert_length_le (m : List (Int × QueuedDownload)) (k : Int) (v : QueuedDownload) :
    (mapInsert m k v).length ≤ m.length + 1 := by
  by_cases h : mapContains m k <;> simp [mapInsert, h]

theorem mapRemove_length_le (m : List (Int × QueuedDownload)) (k : Int) :
    (mapRemove m k).2.length ≤ m.length :=
  List.length_filter_le _ m

/-- Rust's `position` followed by `remove(pos)` removes exactly the first
element satisfying the predicate. -/
theorem eraseIdx_findIdx_eq_eraseP {α : Type} (q : List α) (p : α → Bool) :
    (match q.findIdx? p with
     | some pos => q.eraseIdx pos
     | none => q) = q.eraseP p := by
  induction q with
  | nil => rfl
  | cons a l ih =>
    by_cases h : p a
    · simp [List.findIdx?_cons, h, List.eraseP_cons]
    · cases hfi : l.findIdx? p with
      | none =>
        rw [hfi] at ih
        simpa [List.findIdx?_cons, h, hfi, List.eraseP_cons] using ih
      | some i =>
        rw [hfi] at ih
        simpa [List.findIdx?_cons, h, hfi, List.eraseP_cons,
          List.eraseIdx_cons_succ] using ih

theorem queueIds_eraseP (q : List QueuedDownload) (k : Int) :
    (q.eraseP (fun d => d.media_idx == k)).map (fun d => d.media_idx) =
      (q.map (fun d => d.media_idx)).erase k := by
  rw [List.erase_eq_eraseP']
  induction q with
  | nil => rfl
  | cons a l ih =>
    by_cases h : a.media_idx == k
    · simp [List.eraseP_cons, h]
    · simp only [List.eraseP_cons, h, cond_false, List.map_cons]
      simp [h, ih]

/-! ### State-shape lemmas for the queue operations -/

theorem enqueue_fst_of_found {s : DownloadQueue} {d : QueuedDownload}
    (h : (setContains s.queued_set d.media_idx || mapContains s.active d.media_idx) = true) :
    s.enqueue d = (s, Except.ok ()) := by
  simp [DownloadQueue.enqueue, h]

theorem enqueue_fst_of_new {s : DownloadQueue} {d : QueuedDownload}
    (h : (setContains s.queued_set d.media_idx || mapContains s.active d.media_idx) = false) :
    s.enqueue d =
      ({ s with queued_set := setInsert s.queued_set d.media_idx
                queue := s.queue ++ [d] }, Except.ok ()) := by
  simp [DownloadQueue.enqueue, h]

theorem complete_fst (s : DownloadQueue) (idx : Int) :
    (s.complete idx).1 = { s with active := (mapRemove s.active idx).2 } := by
  unfold DownloadQueue.complete
  rcases h : mapRemove s.active idx with ⟨o, rest⟩
  cases o <;> simp

theorem fail_fst (s : DownloadQueue) (idx : Int) :
    (s.fail idx).1 = { s with active := (mapRemove s.active idx).2 } := by
  unfold DownloadQueue.fail
  rcases h : mapRemove s.active idx with ⟨o, rest⟩
  cases o <;> simp

theorem cancel_of_queued {s : DownloadQueue} {idx : Int}
    (h : setContains s.queued_set idx = true) :
    s.cancel idx =
      ({ s with queued_set := (setRemove s.queued_set idx).2
                queue := s.queue.eraseP (fun d => d.media_idx == idx) }, true) := by
  have hc : (setRemove s.queued_set idx).1 = true := h
  unfold DownloadQueue.cancel
  rw [← eraseIdx_findIdx_eq_eraseP s.queue (fun d => d.media_idx == idx)]
  simp only [hc, if_true]
  cases hfi : s.queue.findIdx? (fun d => d.media_idx == idx) <;> simp

theorem cancel_of_active {s : DownloadQueue} {idx : Int}
    (hq : setContains s.queued_set idx = false)
    (ha : mapContains s.active idx = true) :
    s.cancel idx = ({ s with active := (mapRemove s.active idx).2 }, true) := by
  have hc : (setRemove s.queued_set idx).1 = false := hq
  obtain ⟨p, hp, hpk⟩ : ∃ p, p ∈ s.active ∧ (p.1 == idx) = true :=
    List.any_eq_true.mp ha
  have hsome : (s.active.find? (fun p => p.1 == idx)).isSome := by
    rw [List.find?_isSome]
    exact ⟨p, hp, hpk⟩
  obtain ⟨v, hv⟩ := Option.isSome_iff_exists.mp hsome
  unfold DownloadQueue.cancel
  simp only [hc, Bool.false_eq_true, if_false, mapRemove, hv, Option.map_some']

theorem cancel_of_missing {s : DownloadQueue} {idx : Int}
    (hq : setContains s.queued_set idx = false)
    (ha : mapContains s.active idx = false) :
    s.cancel idx = (s, false) := by
  have hc : (setRemove s.queued_set idx).1 = false := hq
  have hfind : s.active.find? (fun p => p.1 == idx) = none := by
    rw [List.find?_eq_none]
    intro x hx hxk
    have hcontr : mapContains s.active idx = true := List.any_eq_true.mpr ⟨x, hx, hxk⟩
    rw [ha] at hcontr
    exact Bool.false_ne_true hcontr
  unfold DownloadQueue.cancel
  simp only [hc, Bool.false_eq_true, if_false, mapRemove, hfind, Option.map_none']

/-! ### Additional shape lemmas for next_to_start -/

theorem next_of_full {s : DownloadQueue} (h : s.active.length ≥ s.max_concurrent) :
    s.next_to_start = (s, none) := by
  simp [DownloadQueue.next_to_start, h]

theorem next_of_empty {s : DownloadQueue} (h : s.queue = []) :
    s.next_to_start = (s, none) := by
  by_cases hcap : s.active.length ≥ s.max_concurrent
  · simp [DownloadQueue.next_to_start, hcap]
  · simp [DownloadQueue.next_to_start, hcap, h]

theorem next_of_cons {s : DownloadQueue} {d : QueuedDownload} {rest : List QueuedDownload}
    (hcap : ¬ s.active.length ≥ s.max_concurrent) (hq : s.queue = d :: rest) :
    s.next_to_start =
      ({ s with queue := rest
                queued_set := (setRemove s.queued_set d.media_idx).2
                active := mapInsert s.active d.media_idx
                  { d with status := DownloadStatus.Downloading } },
       some { d with status := DownloadStatus.Downloading }) := by
  simp [DownloadQueue.next_to_start, hcap, hq]

theorem nodup_append_singleton {l : List Int} {a : Int} (h : l.Nodup) (ha : a ∉ l) :
    (l ++ [a]).Nodup := by
  simp [List.nodup_append, h, ha]

/-! ### Invariant preservation -/

theorem queueInv_new (n : Nat) : QueueInv (DownloadQueue.new n) := by
  simp [QueueInv, DownloadQueue.new, queueIds, activeKeys]

theorem queueInv_enqueue (s : DownloadQueue) (d : QueuedDownload) (h : QueueInv s) :
    QueueInv (s.enqueue d).1 := by
  obtain ⟨h1, h2, h3, h4, h5, h6⟩ := h
  cases hset : setContains s.queued_set d.media_idx with
  | true =>
    rw [enqueue_fst_of_found (by simp [hset])]
    exact ⟨h1, h2, h3, h4, h5, h6⟩
  | false =>
    cases hmap : mapContains s.active d.media_idx with
    | true =>
      rw [enqueue_fst_of_found (by simp [hset, hmap])]
      exact ⟨h1, h2, h3, h4, h5, h6⟩
    | false =>
      rw [enqueue_fst_of_new (by simp [hset, hmap])]
      have hset_mem : d.media_idx ∉ s.queued_set := by
        intro hm
        rw [(setContains_iff _ _).mpr hm] at hset
        exact absurd hset (by decide)
      have hmap_mem : d.media_idx ∉ activeKeys s := by
        intro hm
        rw [(mapContains_iff _ _).mpr hm] at hmap
        exact absurd hmap (by decide)
      have hids_mem : d.media_idx ∉ queueIds s := fun hm => hset_mem (h5 _ hm)
      have hsi : setInsert s.queued_set d.media_idx = s.queued_set ++ [d.media_idx] := by
        simp [setInsert, hset_mem]
      refine ⟨?_, ?_, h3, ?_, ?_, ?_⟩
      · show ((s.queue ++ [d]).map (fun x => x.media_idx)).Nodup
        rw [List.map_append]
        exact nodup_append_singleton h1 hids_mem
      · show (setInsert s.queued_set d.media_idx).Nodup
        rw [hsi]
        exact nodup_append_singleton h2 hset_mem
      · intro k hk
        have hk' : k ∈ setInsert s.queued_set d.media_idx := hk
        rw [hsi] at hk'
        show k ∈ (s.queue ++ [d]).map (fun x => x.media_idx)
        rw [List.map_append]
        rcases List.mem_append.mp hk' with hm | hm
        · exact List.mem_append.mpr (.inl (h4 k hm))
        · exact List.mem_append.mpr (.inr (by simpa using hm))
      · intro k hk
        have hk' : k ∈ (s.queue ++ [d]).map (fun x => x.media_idx) := hk
        rw [List.map_append] at hk'
        show k ∈ setInsert s.queued_set d.media_idx
        rw [hsi]
        rcases List.mem_append.mp hk' with hm | hm
        · exact List.mem_append.mpr (.inl (h5 k hm))
        · exact List.mem_append.mpr (.inr (by simpa using hm))
      · intro k hk
        have hk' : k ∈ (s.queue ++ [d]).map (fun x => x.media_idx) := hk
        rw [List.map_append] at hk'
        rcases List.mem_append.mp hk' with hm | hm
        · exact h6 k hm
        · have : k = d.media_idx := by simpa using hm
          subst this
          exact hmap_mem

theorem queueInv_next (s : DownloadQueue) (h : QueueInv s) :
    QueueInv s.next_to_start.1 := by
  obtain ⟨h1, h2, h3, h4, h5, h6⟩ := h
  by_cases hcap : s.active.length ≥ s.max_concurrent
  · rw [next_of_full hcap]
    exact ⟨h1, h2, h3, h4, h5, h6⟩
  · cases hq : s.queue with
    | nil =>
      rw [next_of_empty hq]
      exact ⟨h1, h2, h3, h4, h5, h6⟩
    | cons d rest =>
      rw [next_of_cons hcap hq]
      have hqi : queueIds s = d.media_idx :: rest.map (fun x => x.media_idx) := by
        simp [queueIds, hq]
      have hd_rest : d.media_idx ∉ rest.map (fun x => x.media_idx) := by
        have hn := h1
        rw [hqi] at hn
        exact (List.nodup_cons.mp hn).1
      have hrest_nodup : (rest.map (fun x => x.media_idx)).Nodup := by
        have hn := h1
        rw [hqi] at hn
        exact (List.nodup_cons.mp hn).2
      have hd_act : d.media_idx ∉ activeKeys s :=
        h6 _ (by rw [hqi]; exact List.mem_cons_self _ _)
      have hd_act_b : mapContains s.active d.media_idx = false := by
        cases hb : mapContains s.active d.media_idx
        · rfl
        · exact absurd ((mapContains_iff _ _).mp hb) hd_act
      refine ⟨hrest_nodup, setRemove_nodup h2 _, ?_, ?_, ?_, ?_⟩
      · show ((mapInsert s.active d.media_idx
            { d with status := DownloadStatus.Downloading }).map Prod.fst).Nodup
        rw [mapInsert_keys_of_not_contains hd_act_b]
        exact nodup_append_singleton h3 hd_act
      · intro k hk
        obtain ⟨hk_mem, hk_ne⟩ := mem_setRemove.mp hk
        have hm := h4 k hk_mem
        rw [hqi] at hm
        rcases List.mem_cons.mp hm with he | hm'
        · exact absurd he hk_ne
        · exact hm'
      · intro k hk
        have hk' : k ∈ rest.map (fun x => x.media_idx) := hk
        have hk_ne : k ≠ d.media_idx := fun he => hd_rest (he ▸ hk')
        exact mem_setRemove.mpr
          ⟨h5 k (by rw [hqi]; exact List.mem_cons_of_mem _ hk'), hk_ne⟩
      · intro k hk hmem
        have hk' : k ∈ rest.map (fun x => x.media_idx) := hk
        have hk_ne : k ≠ d.media_idx := fun he => hd_rest (he ▸ hk')
        have hmem' : k ∈ (mapInsert s.active d.media_idx
            { d with status := DownloadStatus.Downloading }).map Prod.fst := hmem
        rw [mapInsert_keys_of_not_contains hd_act_b] at hmem'
        rcases List.mem_append.mp hmem' with hmm | hmm
        · exact h6 k (by rw [hqi]; exact List.mem_cons_of_mem _ hk') hmm
        · exact hk_ne (by simpa using hmm)

theorem queueInv_active_filter (s : DownloadQueue) (idx : Int) (h : QueueInv s) :
    QueueInv { s with active := (mapRemove s.active idx).2 } := by
  obtain ⟨h1, h2, h3, h4, h5, h6⟩ := h
  refine ⟨h1, h2, ?_, h4, h5, ?_⟩
  · show ((mapRemove s.active idx).2.map Prod.fst).Nodup
    rw [mapRemove_keys]
    exact h3.filter _
  · intro k hk hmem
    have hmem' : k ∈ (mapRemove s.active idx).2.map Prod.fst := hmem
    rw [mapRemove_keys] at hmem'
    exact h6 k hk (List.mem_of_mem_filter hmem')

theorem queueInv_complete (s : DownloadQueue) (idx : Int) (h : QueueInv s) :
    QueueInv (s.complete idx).1 := by
  rw [complete_fst]
  exact queueInv_active_filter s idx h

theorem queueInv_fail (s : DownloadQueue) (idx : Int) (h : QueueInv s) :
    QueueInv (s.fail idx).1 := by
  rw [fail_fst]
  exact queueInv_active_filter s idx h

theorem queueInv_cancel (s : DownloadQueue) (idx : Int) (h : QueueInv s) :
    QueueInv (s.cancel idx).1 := by
  obtain ⟨h1, h2, h3, h4, h5, h6⟩ := h
  by_cases hq : setContains s.queued_set idx = true
  · rw [cancel_of_queued hq]
    have hids := queueIds_eraseP s.queue idx
    refine ⟨?_, setRemove_nodup h2 _, h3, ?_, ?_, ?_⟩
    · show ((s.queue.eraseP (fun d => d.media_idx == idx)).map (fun d => d.media_idx)).Nodup
      rw [hids]
      exact h1.erase idx
    · intro k hk
      obtain ⟨hk_mem, hk_ne⟩ := mem_setRemove.mp hk
      show k ∈ (s.queue.eraseP (fun d => d.media_idx == idx)).map (fun d => d.media_idx)
      rw [hids]
      exact (List.Nodup.mem_erase_iff h1).mpr ⟨hk_ne, h4 k hk_mem⟩
    · intro k hk
      have hk' : k ∈ (queueIds s).erase idx := by
        have hmm : k ∈ (s.queue.eraseP (fun d => d.media_idx == idx)).map
            (fun d => d.media_idx) := hk
        rw [hids] at hmm
        exact hmm
      obtain ⟨hk_ne, hk_mem⟩ := (List.Nodup.mem_erase_iff h1).mp hk'
      exact mem_setRemove.mpr ⟨h5 k hk_mem, hk_ne⟩
    · intro k hk
      have hk' : k ∈ (queueIds s).erase idx := by
        have hmm : k ∈ (s.queue.eraseP (fun d => d.media_idx == idx)).map
            (fun d => d.media_idx) := hk
        rw [hids] at hmm
        exact hmm
      exact h6 k ((List.Nodup.mem_erase_iff h1).mp hk').2
  · have hq' : setContains s.queued_set idx = false := Bool.of_not_eq_true hq
    by_cases ha : mapContains s.active idx = true
    · rw [cancel_of_active hq' ha]
      exact queueInv_active_filter s idx ⟨h1, h2, h3, h4, h5, h6⟩
    · rw [cancel_of_missing hq' (Bool.of_not_eq_true ha)]
      exact ⟨h1, h2, h3, h4, h5, h6⟩

theorem queueInv_cancel_all (s : DownloadQueue) (_h : QueueInv s) :
    QueueInv s.cancel_all.1 := by
  simp [QueueInv, DownloadQueue.cancel_all, queueIds, activeKeys]

theorem queueInv_setMax (s : DownloadQueue) (n : Nat) (h : QueueInv s) :
    QueueInv (s.set_max_concurrent n) := by
  obtain ⟨h1, h2, h3, h4, h5, h6⟩ := h
  exact ⟨h1, h2, h3, h4, h5, h6⟩

theorem queueInv_applyOp (s : DownloadQueue) (op : QueueOp) (h : QueueInv s) :
    QueueInv (applyOp s op) := by
  cases op with
  | enqueue d => exact queueInv_enqueue s d h
  | startNext => exact queueInv_next s h
  | complete idx => exact queueInv_complete s idx h
  | fail idx => exact queueInv_fail s idx h
  | cancel idx => exact queueInv_cancel s idx h
  | cancelAll => exact queueInv_cancel_all s h
  | setMax n => exact queueInv_setMax s n h

theorem queueInv_runOps (s : DownloadQueue) (ops : List QueueOp) (h : QueueInv s) :
    QueueInv (runOps s ops) := by
  induction ops generalizing s with
  | nil => exact h
  | cons op rest ih => exact ih _ (queueInv_applyOp s op h)

/-! ### Capacity bound and clamp facts -/

theorem enqueue_max (s : DownloadQueue) (d : QueuedDownload) :
    (s.enqueue d).1.max_concurrent = s.max_concurrent := by
  by_cases hc : (setContains s.queued_set d.media_idx || mapContains s.active d.media_idx) = true
  · rw [enqueue_fst_of_found hc]
  · rw [enqueue_fst_of_new (Bool.of_not_eq_true hc)]

theorem enqueue_active (s : DownloadQueue) (d : QueuedDownload) :
    (s.enqueue d).1.active = s.active := by
  by_cases hc : (setContains s.queued_set d.media_idx || mapContains s.active d.media_idx) = true
  · rw [enqueue_fst_of_found hc]
  · rw [enqueue_fst_of_new (Bool.of_not_eq_true hc)]

theorem next_max (s : DownloadQueue) :
    s.next_to_start.1.max_concurrent = s.max_concurrent := by
  unfold DownloadQueue.next_to_start
  split
  · rfl
  · split <;> rfl

theorem complete_max (s : DownloadQueue) (idx : Int) :
    (s.complete idx).1.max_concurrent = s.max_concurrent := by
  rw [complete_fst]

theorem fail_max (s : DownloadQueue) (idx : Int) :
    (s.fail idx).1.max_concurrent = s.max_concurrent := by
  rw [fail_fst]

theorem cancel_max (s : DownloadQueue) (idx : Int) :
    (s.cancel idx).1.max_concurrent = s.max_concurrent := by
  by_cases hq : setContains s.queued_set idx = true
  · rw [cancel_of_queued hq]
  · have hq' := Bool.of_not_eq_true hq
    by_cases ha : mapContains s.active idx = true
    · rw [cancel_of_active hq' ha]
    · rw [cancel_of_missing hq' (Bool.of_not_eq_true ha)]

theorem cancel_active_length (s : DownloadQueue) (idx : Int) :
    (s.cancel idx).1.active.length ≤ s.active.length := by
  by_cases hq : setContains s.queued_set idx = true
  · rw [cancel_of_queued hq]
  · have hq' := Bool.of_not_eq_true hq
    by_cases ha : mapContains s.active idx = true
    · rw [cancel_of_active hq' ha]
      exact mapRemove_length_le s.active idx
    · rw [cancel_of_missing hq' (Bool.of_not_eq_true ha)]

theorem capBound_applyOp (s : DownloadQueue) (op : QueueOp)
    (hop : ∀ n, op ≠ QueueOp.setMax n)
    (h : s.active.length ≤ s.max_concurrent) :
    (applyOp s op).active.length ≤ (applyOp s op).max_concurrent := by
  cases op with
  | enqueue d =>
    show (s.enqueue d).1.active.length ≤ (s.enqueue d).1.max_concurrent
    rw [enqueue_max, enqueue_active]
    exact h
  | startNext =>
    show s.next_to_start.1.active.length ≤ s.next_to_start.1.max_concurrent
    by_cases hcap : s.active.length ≥ s.max_concurrent
    · rw [next_of_full hcap]
      exact h
    · cases hq : s.queue with
      | nil =>
        rw [next_of_empty hq]
        exact h
      | cons d rest =>
        rw [next_of_cons hcap hq]
        have hle := mapInsert_length_le s.active d.media_idx
          { d with status := DownloadStatus.Downloading }
        have hlt : s.active.length < s.max_concurrent := Nat.lt_of_not_le hcap
        show (mapInsert s.active d.media_idx
          { d with status := DownloadStatus.Downloading }).length ≤ s.max_concurrent
        omega
  | complete idx =>
    show (s.complete idx).1.active.length ≤ (s.complete idx).1.max_concurrent
    rw [complete_fst]
    exact Nat.le_trans (mapRemove_length_le s.active idx) h
  | fail idx =>
    show (s.fail idx).1.active.length ≤ (s.fail idx).1.max_concurrent
    rw [fail_fst]
    exact Nat.le_trans (mapRemove_length_le s.active idx) h
  | cancel idx =>
    show (s.cancel idx).1.active.length ≤ (s.cancel idx).1.max_concurrent
    rw [cancel_max]
    exact Nat.le_trans (cancel_active_length s idx) h
  | cancelAll =>
    show s.cancel_all.1.active.length ≤ s.cancel_all.1.max_concurrent
    exact Nat.zero_le _
  | setMax n => exact absurd rfl (hop n)

theorem capBound_runOps (s : DownloadQueue) (ops : List QueueOp)
    (hno : hasSetMax ops = false) (h : s.active.length ≤ s.max_concurrent) :
    (runOps s ops).active.length ≤ (runOps s ops).max_concurrent := by
  induction ops generalizing s with
  | nil => exact h
  | cons op rest ih =>
    have hops : isSetMaxOp op = false ∧ rest.any isSetMaxOp = false := by
      simpa only [hasSetMax, List.any_cons, Bool.or_eq_false_iff] using hno
    have hop : ∀ n, op ≠ QueueOp.setMax n := by
      intro n he
      subst he
      exact absurd hops.1 (by simp [isSetMaxOp])
    exact ih _ hops.2 (capBound_applyOp s op hop h)

theorem maxPos_applyOp (s : DownloadQueue) (op : QueueOp)
    (h : 1 ≤ s.max_concurrent) : 1 ≤ (applyOp s op).max_concurrent := by
  cases op with
  | enqueue d => rw [show (applyOp s (QueueOp.enqueue d)).max_concurrent =
      (s.enqueue d).1.max_concurrent from rfl, enqueue_max]; exact h
  | startNext => rw [show (applyOp s QueueOp.startNext).max_concurrent =
      s.next_to_start.1.max_concurrent from rfl, next_max]; exact h
  | complete idx => rw [show (applyOp s (QueueOp.complete idx)).max_concurrent =
      (s.complete idx).1.max_concurrent from rfl, complete_max]; exact h
  | fail idx => rw [show (applyOp s (QueueOp.fail idx)).max_concurrent =
      (s.fail idx).1.max_concurrent from rfl, fail_max]; exact h
  | cancel idx => rw [show (applyOp s (QueueOp.cancel idx)).max_concurrent =
      (s.cancel idx).1.max_concurrent from rfl, cancel_max]; exact h
  | cancelAll => exact h
  | setMax n => exact Nat.le_max_right n 1

theorem maxPos_runOps (s : DownloadQueue) (ops : List QueueOp)
    (h : 1 ≤ s.max_concurrent) : 1 ≤ (runOps s ops).max_concurrent := by
  induction ops generalizing s with
  | nil => exact h
  | cons op rest ih => exact ih _ (maxPos_applyOp s op h)

/-! ### Model of Rust f64 values produced by progress parsing

`parse_progress_percent` (progress.rs) calls `str::parse::<f64>()` and then
`f64::clamp(0.0, 100.0)`.  We model the parse result as `RustF64`: NaN, a
signed infinity, or a finite value kept as an exact rational.  Keeping finite
literals exact (no rounding, no overflow-to-infinity) does not change any
statement proved here, because the parsed value is immediately clamped into
[0,100]: every finite rational clamps into [0,100] exactly as its rounded f64
counterpart does, and an overflowing literal clamps to the same endpoint as the
infinity it would round to.  NaN survives `clamp` unchanged, exactly as Rust's
`f64::clamp` propagates a NaN input. -/

inductive RustF64 where
  | nan
  | inf (negative : Bool)
  | finite (val : ℚ)
deriving DecidableEq, Repr

/-- Optional leading sign, as accepted by Rust's float grammar. -/
def splitSign : List Char → Bool × List Char
  | '+' :: cs => (false, cs)
  | '-' :: cs => (true, cs)
  | cs => (false, cs)

def lowerCase (cs : List Char) : List Char :=
  cs.map Char.toLower

def digitVal (c : Char) : Nat :=
  c.toNat - '0'.toNat

def digitsToNat (ds : List Char) : Nat :=
  ds.foldl (fun acc c => acc * 10 + digitVal c) 0

def takeDigits (cs : List Char) : List Char × List Char :=
  (cs.takeWhile Char.isDigit, cs.dropWhile Char.isDigit)

/-- Mantissa of Rust's float grammar: `digits`, `digits.digits?` or `.digits`;
returns the concatenated digit value, the number of fraction digits (its
decimal value is `digits * 10 ^ (-fracLen)`), and the unconsumed remainder. -/
def parseMantissa (cs : List Char) : Option ((Nat × Nat) × List Char) :=
  let intPart := takeDigits cs
  match intPart.2 with
  | '.' :: rest2 =>
    let fracPart := takeDigits rest2
    if intPart.1.isEmpty && fracPart.1.isEmpty then none
    else some ((digitsToNat (intPart.1 ++ fracPart.1), fracPart.1.length), fracPart.2)
  | _ =>
    if intPart.1.isEmpty then none else some ((digitsToNat intPart.1, 0), intPart.2)

/-- Exact rational value of the signed decimal `digits * 10 ^ shift`, built
directly with `Rat.divInt` on integers. -/
def decimalToRat (negative : Bool) (digits : Nat) (shift : Int) : ℚ :=
  let mag : ℚ :=
    if 0 ≤ shift then ((digits * 10 ^ shift.toNat : Nat) : ℚ)
    else Rat.divInt (digits : Int) ((10 ^ (-shift).toNat : Nat) : Int)
  if negative then -mag else mag

/-- Optional exponent of Rust's float grammar, which must consume the whole
remainder: empty input means exponent 0; otherwise `e`/`E`, optional sign and
at least one digit. -/
def parseExponent : List Char → Option Int
  | [] => some 0
  | c :: rest =>
    if c == 'e' || c == 'E' then
      let signed := splitSign rest
      let ds := takeDigits signed.2
      if ds.1.isEmpty || !ds.2.isEmpty then none
      else some (if signed.1 then -(digitsToNat ds.1 : Int) else (digitsToNat ds.1 : Int))
    else none

/-- Model of Rust's `str::parse::<f64>` on a character list: optional sign,
then case-insensitive `inf`/`infinity`/`nan` or a decimal mantissa with
optional exponent. -/
def parse_f64 (cs : List Char) : Option RustF64 :=
  let signed := splitSign cs
  let body := lowerCase signed.2
  if body == "inf".data || body == "infinity".data then some (RustF64.inf signed.1)
  else if body == "nan".data then some RustF64.nan
  else
    match parseMantissa signed.2 with
    | none => none
    | some m =>
      match parseExponent m.2 with
      | none => none
      | some e =>
        some (RustF64.finite (decimalToRat signed.1 m.1.1 (e - (m.1.2 : Int))))

/-- Rust's `f64::clamp(0.0, 100.0)`: `if self < min { min } else if self > max
{ max } else { self }`; NaN propagates (every comparison with NaN is false),
infinities hit the endpoints. -/
def clampPercent : RustF64 → RustF64
  | RustF64.nan => RustF64.nan
  | RustF64.inf negative => RustF64.finite (if negative then 0 else 100)
  | RustF64.finite q => RustF64.finite (if q < 0 then 0 else if 100 < q then 100 else q)

/-- The `"remedia-"` marker of the yt-dlp progress template. -/
def markerChars : List Char :=
  "remedia-".data

/-- `line.find(MARKER)` followed by slicing past the marker: the text after
the first occurrence of `"remedia-"`, if any. -/
def dropMarker : List Char → Option (List Char)
  | [] => none
  | c :: cs =>
    if (c :: cs).take 8 == markerChars then some ((c :: cs).drop 8)
    else dropMarker cs

/-- `after_prefix.find('%')` followed by slicing: the text before the first
`'%'`, provided one exists. -/
def textBeforePercent (cs : List Char) : Option (List Char) :=
  if cs.contains '%' then some (cs.takeWhile (fun c => !(c == '%'))) else none

/-- `str::trim` (whitespace stripped from both ends). -/
def trimChars (cs : List Char) : List Char :=
  ((cs.dropWhile Char.isWhitespace).reverse.dropWhile Char.isWhitespace).reverse

/-- `parse_progress_percent` from progress.rs. -/
def parse_progress_percent (line : String) : Option RustF64 :=
  match dropMarker line.data with
  | none => none
  | some afterMarker =>
    match textBeforePercent afterMarker with
    | none => none
    | some raw =>
      let percent_str := trimChars raw
      if percent_str == "N/A".data then none
      else (parse_f64 percent_str).map clampPercent

/-- A parsed percentage lying in the interval [0,100]. -/
def inRange (v : RustF64) : Prop :=
  ∃ q : ℚ, v = RustF64.finite q ∧ 0 ≤ q ∧ q ≤ 100

/-- The `percent >= 100.0` test of the stdout/stderr handlers in
subprocess.rs (an f64 comparison, false on NaN). -/
def progressAtLeast100 : RustF64 → Bool
  | RustF64.nan => false
  | RustF64.inf negative => !negative
  | RustF64.finite q => decide (100 ≤ q)

/-- Whether the stdout-line handler of `execute_download` emits a progress
event for `line` (subprocess.rs): only when the line parses to a percentage,
and then only if the percentage is ≥ 100 or the debounce interval elapsed. -/
def emitsProgress (line : String) (debounceElapsed : Bool) : Bool :=
  match parse_progress_percent line with
  | some percent => progressAtLeast100 percent || debounceElapsed
  | none => false

/-! ### Terminal-outcome classification (subprocess.rs, lines 317-342) -/

/-- Which terminal event `execute_download` emits for the job. -/
inductive TerminalEvent where
  | downloadCancelled
  | downloadComplete
  | downloadError
deriving DecidableEq, Repr

/-- Which queue bookkeeping call `execute_download` makes at the end. -/
inductive TerminalQueueCall where
  | cancelCall
  | completeCall
  | failCall
deriving DecidableEq, Repr

/-- The outcome-classification block at the end of `execute_download`:
given the observed cancellation flag and the `child.wait()` result (`none`
when the wait itself errored, otherwise `some status.success()`), the emitted
terminal event and the queue call made. -/
def classify_terminal (cancelled : Bool) (statusSuccess : Option Bool) :
    TerminalEvent × TerminalQueueCall :=
  if cancelled then (TerminalEvent.downloadCancelled, TerminalQueueCall.cancelCall)
  else
    match statusSuccess with
    | some exitOk =>
      if exitOk then (TerminalEvent.downloadComplete, TerminalQueueCall.completeCall)
      else (TerminalEvent.downloadError, TerminalQueueCall.failCall)
    | none => (TerminalEvent.downloadError, TerminalQueueCall.failCall)

/-! ### Concrete fixtures -/

/-- A minimal concrete job, as in the unit tests of download_queue.rs. -/
def testDownload (idx : Int) : QueuedDownload :=
  { media_idx := idx
    url := ""
    output_location := ""
    settings := ""
    subfolder := none
    status := DownloadStatus.Queued }

/-- A queue state whose only content is job 1 in the running map. -/
def qActiveOne : DownloadQueue :=
  { max_concurrent := 1
    queue := []
    queued_set := []
    active := [(1, testDownload 1)] }

/-- Enqueue A then B into a fresh queue with capacity 1. -/
def qTwoPending : DownloadQueue :=
  (((DownloadQueue.new 1).enqueue (testDownload 1)).1.enqueue (testDownload 2)).1

/-- Operations reaching a state with two running jobs before the capacity is
lowered to 1. -/
def c3GoodOps : List QueueOp :=
  [QueueOp.enqueue (testDownload 1), QueueOp.enqueue (testDownload 2),
   QueueOp.startNext, QueueOp.startNext]

/-- `c3GoodOps` followed by lowering the capacity below the running count. -/
def c3Ops : List QueueOp :=
  c3GoodOps ++ [QueueOp.setMax 1]

/-! ### Claim theorems -/

/-- C1 (amended): `complete(id)` and `fail(id)` remove the id from the running
map and return `()` — no found indicator (the terminal status is only written
into a dropped local copy); `cancel(id)` removes a queued id from the pending
sequence and set, or an active id from the running map, and alone returns
whether the id was found. -/
theorem C1_terminal_calls (s : DownloadQueue) (idx : Int) :
    (s.complete idx).1 = { s with active := (mapRemove s.active idx).2 } ∧
    (s.fail idx).1 = { s with active := (mapRemove s.active idx).2 } ∧
    (s.cancel idx).2 = (setContains s.queued_set idx || mapContains s.active idx) ∧
    (setContains s.queued_set idx = true →
      (s.cancel idx).1 = { s with queued_set := (setRemove s.queued_set idx).2
                                  queue := s.queue.eraseP (fun d => d.media_idx == idx) }) ∧
    (setContains s.queued_set idx = false →
      (s.cancel idx).1 = { s with active := (mapRemove s.active idx).2 }) := by
  refine ⟨complete_fst s idx, fail_fst s idx, ?_, ?_, ?_⟩
  · by_cases hq : setContains s.queued_set idx = true
    · rw [cancel_of_queued hq, hq]
      rfl
    · have hq' := Bool.of_not_eq_true hq
      by_cases ha : mapContains s.active idx = true
      · rw [cancel_of_active hq' ha, hq', ha]
        rfl
      · have ha' := Bool.of_not_eq_true ha
        rw [cancel_of_missing hq' ha', hq', ha']
        rfl
  · intro hq
    rw [cancel_of_queued hq]
  · intro hq
    by_cases ha : mapContains s.active idx = true
    · rw [cancel_of_active hq ha]
    · have ha' := Bool.of_not_eq_true ha
      rw [cancel_of_missing hq ha']
      have hfe : s.active.filter (fun p => !(p.1 == idx)) = s.active := by
        rw [List.filter_eq_self]
        intro p hp
        cases hpk : (p.1 == idx) with
        | false => simp [hpk]
        | true =>
          have hha : mapContains s.active idx = true := List.any_eq_true.mpr ⟨p, hp, hpk⟩
          rw [ha'] at hha
          exact absurd hha (by decide)
      have hsame : { s with active := (mapRemove s.active idx).2 } = s := by
        show { s with active := s.active.filter (fun p => !(p.1 == idx)) } = s
        rw [hfe]
      exact hsame.symm

/-- C1 (counterexample to the claim as stated): the value returned by
`complete` is `()`, which cannot report whether the id was found — no reading
of the return value agrees with pre-call membership in the running map. -/
theorem C1_counterexample :
    ¬ ∃ report : Unit → Bool, ∀ (s : DownloadQueue) (idx : Int),
        report (s.complete idx).2 = mapContains s.active idx := by
  rintro ⟨report, hr⟩
  have h1 := hr qActiveOne 1
  have h0 := hr (DownloadQueue.new 1) 1
  rw [show mapContains qActiveOne.active 1 = true from rfl] at h1
  rw [show mapContains (DownloadQueue.new 1).active 1 = false from rfl] at h0
  rw [show (qActiveOne.complete 1).2 = () from rfl] at h1
  rw [show ((DownloadQueue.new 1).complete 1).2 = () from rfl] at h0
  rw [h1] at h0
  exact absurd h0 (by decide)

/-- C1 witness: concrete instance of the amended claim — cancelling the
running job 1 reports it was found. -/
theorem C1_witness : (qActiveOne.cancel 1).2 = true := by
  have h := (C1_terminal_calls qActiveOne 1).2.2.1
  rw [h]
  decide

/-- C3 (amended): in every state reachable from a fresh queue by enqueue,
admission, complete, fail, cancel and cancel_all, (a) pending and running ids
are disjoint and (b) the pending-id set mirrors pending-sequence membership;
(c) the running count stays within `max_concurrent` provided the sequence
contains no `set_max_concurrent` call (lowering the capacity below the current
running count is possible, since running jobs are not preempted). -/
theorem C3_invariants (n : Nat) (ops : List QueueOp) :
    (∀ k ∈ queueIds (runOps (DownloadQueue.new n) ops),
        k ∉ activeKeys (runOps (DownloadQueue.new n) ops)) ∧
    (∀ k : Int, k ∈ (runOps (DownloadQueue.new n) ops).queued_set ↔
        k ∈ queueIds (runOps (DownloadQueue.new n) ops)) ∧
    (hasSetMax ops = false →
      (runOps (DownloadQueue.new n) ops).active.length ≤
        (runOps (DownloadQueue.new n) ops).max_concurrent) := by
  obtain ⟨h1, h2, h3, h4, h5, h6⟩ := queueInv_runOps _ ops (queueInv_new n)
  refine ⟨h6, fun k => ⟨h4 k, h5 k⟩, fun hno => capBound_runOps _ ops hno ?_⟩
  show (DownloadQueue.new n).active.length ≤ (DownloadQueue.new n).max_concurrent
  exact Nat.zero_le _

/-- C3 (counterexample to the claim as stated): starting two jobs under
capacity 2 and then calling `set_max_concurrent 1` reaches a state with two
running jobs but `max_concurrent = 1`, violating part (c) of the claim. -/
theorem C3_counterexample :
    ¬ ((runOps (DownloadQueue.new 2) c3Ops).active.length ≤
        (runOps (DownloadQueue.new 2) c3Ops).max_concurrent) := by
  decide

/-- C3 witness: the amended bound holds along the same trace before the
capacity change. -/
theorem C3_witness :
    (runOps (DownloadQueue.new 2) c3GoodOps).active.length ≤
      (runOps (DownloadQueue.new 2) c3GoodOps).max_concurrent :=
  (C3_invariants 2 c3GoodOps).2.2 (by decide)

/-- C4: `next_to_start` returns none when the running count has reached
`max_concurrent` or the pending sequence is empty; otherwise it removes
exactly the front pending job, marks it `Downloading`, inserts it into the
running map and returns it.  With capacity 1, after enqueueing jobs 1 and 2
the first admission returns job 1. -/
theorem C4_admission :
    (∀ s : DownloadQueue,
      (s.active.length ≥ s.max_concurrent → s.next_to_start = (s, none)) ∧
      (s.queue = [] → s.next_to_start = (s, none)) ∧
      (∀ (d : QueuedDownload) (rest : List QueuedDownload),
        ¬ s.active.length ≥ s.max_concurrent → s.queue = d :: rest →
        s.next_to_start =
          ({ s with queue := rest
                    queued_set := (setRemove s.queued_set d.media_idx).2
                    active := mapInsert s.active d.media_idx
                      { d with status := DownloadStatus.Downloading } },
           some { d with status := DownloadStatus.Downloading }))) ∧
    qTwoPending.next_to_start.2 =
      some { testDownload 1 with status := DownloadStatus.Downloading } := by
  refine ⟨fun s => ⟨fun h => next_of_full h, fun h => next_of_empty h,
    fun d rest hcap hq => next_of_cons hcap hq⟩, by decide⟩

/-- C4 witness: a fresh queue has nothing to admit. -/
theorem C4_witness : (DownloadQueue.new 1).next_to_start = (DownloadQueue.new 1, none) :=
  (C4_admission.1 (DownloadQueue.new 1)).2.1 rfl

/-- C5: the terminal outcome is Cancelled whenever the cancellation flag was
observed set — even when the process exits successfully — and otherwise
Failed without an exit status, Completed on success, Failed on non-zero
exit. -/
theorem C5_outcome :
    (∀ statusSuccess : Option Bool,
      classify_terminal true statusSuccess =
        (TerminalEvent.downloadCancelled, TerminalQueueCall.cancelCall)) ∧
    classify_terminal true (some true) =
      (TerminalEvent.downloadCancelled, TerminalQueueCall.cancelCall) ∧
    classify_terminal false none = (TerminalEvent.downloadError, TerminalQueueCall.failCall) ∧
    classify_terminal false (some true) =
      (TerminalEvent.downloadComplete, TerminalQueueCall.completeCall) ∧
    classify_terminal false (some false) =
      (TerminalEvent.downloadError, TerminalQueueCall.failCall) :=
  ⟨fun _ => rfl, rfl, rfl, rfl, rfl⟩

/-- C6: enqueueing a job whose id is already pending or running is a no-op
returning `Ok(())`: the whole state — in particular the pending queue and its
size — is unchanged.  (The hypothesis that every pending id is in the
pending-id set is part of the structural invariant of every reachable
state.) -/
theorem C6_enqueue_idempotent (s : DownloadQueue) (d : QueuedDownload)
    (hmirror : ∀ k ∈ queueIds s, k ∈ s.queued_set)
    (hmem : d.media_idx ∈ queueIds s ∨ mapContains s.active d.media_idx = true) :
    s.enqueue d = (s, Except.ok ()) ∧
    (s.enqueue d).1.queue.length = s.queue.length := by
  have hcond : (setContains s.queued_set d.media_idx ||
      mapContains s.active d.media_idx) = true := by
    rcases hmem with hm | hm
    · rw [(setContains_iff _ _).mpr (hmirror _ hm)]
      rfl
    · rw [hm]
      simp
  refine ⟨enqueue_fst_of_found hcond, ?_⟩
  rw [enqueue_fst_of_found hcond]

/-- C6 witness: re-enqueueing the already-pending job 1 changes nothing. -/
theorem C6_witness :
    qTwoPending.enqueue (testDownload 1) = (qTwoPending, Except.ok ()) ∧
    (qTwoPending.enqueue (testDownload 1)).1.queue.length = qTwoPending.queue.length :=
  C6_enqueue_idempotent qTwoPending (testDownload 1) (by decide) (by decide)

/-- C7: `set_max_concurrent n` stores `max n 1` (so 0 is clamped to 1), the
constructor clamps the same way, and in every state reachable from a fresh
queue `status()` reports `max_concurrent ≥ 1`. -/
theorem C7_clamp :
    (∀ (s : DownloadQueue) (n : Nat),
      (s.set_max_concurrent n).max_concurrent = Nat.max n 1) ∧
    (∀ s : DownloadQueue, (s.set_max_concurrent 0).max_concurrent = 1) ∧
    (∀ n : Nat, (DownloadQueue.new n).max_concurrent = Nat.max n 1) ∧
    (DownloadQueue.new 0).max_concurrent = 1 ∧
    (∀ (n : Nat) (ops : List QueueOp),
      1 ≤ ((runOps (DownloadQueue.new n) ops).status).max_concurrent) := by
  refine ⟨fun s n => rfl, fun s => rfl, fun n => rfl, rfl, fun n ops => ?_⟩
  show 1 ≤ (runOps (DownloadQueue.new n) ops).max_concurrent
  exact maxPos_runOps _ ops (Nat.le_max_right n 1)

/-- Every clamped value is NaN or lies in [0,100]. -/
theorem clampPercent_cases (w : RustF64) :
    clampPercent w = RustF64.nan ∨ inRange (clampPercent w) := by
  cases w with
  | nan => exact Or.inl rfl
  | inf negative =>
    refine Or.inr ⟨if negative then 0 else 100, rfl, ?_, ?_⟩ <;>
      cases negative <;> norm_num
  | finite q =>
    refine Or.inr ⟨if q < 0 then 0 else if 100 < q then 100 else q, rfl, ?_, ?_⟩
    · by_cases h0 : q < 0
      · simp [h0]
      · by_cases h100 : 100 < q
        · simp [h0, h100]
        · simp only [h0, h100, if_false]
          exact le_of_not_lt h0
    · by_cases h0 : q < 0
      · simp [h0]
      · by_cases h100 : 100 < q
        · simp [h0, h100]
        · simp only [h0, h100, if_false]
          exact le_of_not_lt h100

/-- C8 (amended): every percentage returned by `parse_progress_percent` is
NaN or lies in [0,100]; in particular `-5%` parses to 0 and `150%` to 100.
The NaN escape happens only when the marker carries a literal `nan` percent
field, which Rust's `f64` parser accepts and `clamp` propagates. -/
theorem C8_clamped :
    (∀ (line : String) (v : RustF64), parse_progress_percent line = some v →
      v = RustF64.nan ∨ inRange v) ∧
    parse_progress_percent "remedia--5%-2:30" = some (RustF64.finite 0) ∧
    parse_progress_percent "remedia-150%-0:00" = some (RustF64.finite 100) := by
  refine ⟨?_, by decide, by decide⟩
  intro line v h
  unfold parse_progress_percent at h
  cases hm : dropMarker line.data with
  | none => rw [hm] at h; cases h
  | some afterMarker =>
    rw [hm] at h
    have h1 : (match textBeforePercent afterMarker with
      | none => none
      | some raw =>
        let percent_str := trimChars raw
        if (percent_str == "N/A".data) = true then none
        else Option.map clampPercent (parse_f64 percent_str)) = some v := h
    cases hp : textBeforePercent afterMarker with
    | none => rw [hp] at h1; cases h1
    | some raw =>
      rw [hp] at h1
      have h2 : (if (trimChars raw == "N/A".data) = true then none
          else Option.map clampPercent (parse_f64 (trimChars raw))) = some v := h1
      by_cases hna : (trimChars raw == "N/A".data) = true
      · rw [if_pos hna] at h2
        cases h2
      · rw [if_neg hna] at h2
        obtain ⟨w, _, hv⟩ := Option.map_eq_some'.mp h2
        rw [← hv]
        exact clampPercent_cases w

/-- C8 (counterexample to the claim as stated): a marker carrying `nan`
parses to NaN, which is outside [0,100]. -/
theorem C8_counterexample :
    parse_progress_percent "remedia-nan%-0:00" = some RustF64.nan ∧
    ¬ inRange RustF64.nan := by
  refine ⟨by decide, ?_⟩
  rintro ⟨q, hq, -⟩
  cases hq

/-- C8 witness: a regular progress line parses into [0,100]. -/
theorem C8_witness :
    RustF64.finite 100 = RustF64.nan ∨ inRange (RustF64.finite 100) :=
  C8_clamped.1 "remedia-150%-0:00" (RustF64.finite 100) (by decide)

/-- C9: whenever the text between the progress marker and the `%` sign trims
to the literal `N/A`, `parse_progress_percent` returns none, and consequently
no progress event is emitted for that line. -/
theorem C9_na (line : String) (afterMarker raw : List Char)
    (hm : dropMarker line.data = some afterMarker)
    (hp : textBeforePercent afterMarker = some raw)
    (ht : trimChars raw = "N/A".data) :
    parse_progress_percent line = none ∧
    ∀ debounceElapsed : Bool, emitsProgress line debounceElapsed = false := by
  have hpp : parse_progress_percent line = none := by
    unfold parse_progress_percent
    rw [hm]
    show (match textBeforePercent afterMarker with
      | none => none
      | some raw =>
        let percent_str := trimChars raw
        if (percent_str == "N/A".data) = true then none
        else Option.map clampPercent (parse_f64 percent_str)) = none
    rw [hp]
    show (if (trimChars raw == "N/A".data) = true then none
      else Option.map clampPercent (parse_f64 (trimChars raw))) = none
    rw [ht]
    simp
  exact ⟨hpp, fun debounceElapsed => by simp [emitsProgress, hpp]⟩

/-- C9 witness: the line `remedia-N/A%-2:30` produces no progress value and
no progress event. -/
theorem C9_witness :
    parse_progress_percent "remedia-N/A%-2:30" = none ∧
    ∀ debounceElapsed : Bool, emitsProgress "remedia-N/A%-2:30" debounceElapsed = false :=
  C9_na "remedia-N/A%-2:30" ("N/A%-2:30".data) ("N/A".data)
    (by decide) (by decide) (by decide)

/-- C10: enqueueing a job whose id is already pending or running leaves every
field of the queue state unchanged and still returns `Ok(())`; the new
payload is discarded — if the offered job differs from everything pending, it
is still absent afterwards. -/
theorem C10_enqueue_frame (s : DownloadQueue) (d : QueuedDownload)
    (hmirror : ∀ k ∈ queueIds s, k ∈ s.queued_set)
    (hmem : d.media_idx ∈ queueIds s ∨ mapContains s.active d.media_idx = true) :
    (s.enqueue d).1.queue = s.queue ∧
    (s.enqueue d).1.queued_set = s.queued_set ∧
    (s.enqueue d).1.active = s.active ∧
    (s.enqueue d).1.max_concurrent = s.max_concurrent ∧
    (s.enqueue d).2 = Except.ok () ∧
    (d ∉ s.queue → d ∉ (s.enqueue d).1.queue) := by
  have hcond : (setContains s.queued_set d.media_idx ||
      mapContains s.active d.media_idx) = true := by
    rcases hmem with hm | hm
    · rw [(setContains_iff _ _).mpr (hmirror _ hm)]
      rfl
    · rw [hm]
      simp
  rw [enqueue_fst_of_found hcond]
  exact ⟨rfl, rfl, rfl, rfl, rfl, fun h => h⟩

/-- C10 witness: re-enqueueing id 1 with a different url changes nothing and
the differing payload is discarded. -/
theorem C10_witness :
    (qTwoPending.enqueue { testDownload 1 with url := "other" }).1.queue =
      qTwoPending.queue ∧
    (qTwoPending.enqueue { testDownload 1 with url := "other" }).1.queued_set =
      qTwoPending.queued_set ∧
    (qTwoPending.enqueue { testDownload 1 with url := "other" }).1.active =
      qTwoPending.active ∧
    (qTwoPending.enqueue { testDownload 1 with url := "other" }).1.max_concurrent =
      qTwoPending.max_concurrent ∧
    (qTwoPending.enqueue { testDownload 1 with url := "other" }).2 = Except.ok () ∧
    ({ testDownload 1 with url := "other" } ∉ qTwoPending.queue →
      { testDownload 1 with url := "other" } ∉
        (qTwoPending.enqueue { testDownload 1 with url := "other" }).1.queue) :=
  C10_enqueue_frame qTwoPending { testDownload 1 with url := "other" }
    (by decide) (by decide)
